import Mathlib

/-!
Verification development for the statistical core of the repository
(file src/utils.py): IQR outlier detection (find_outliers), the Cramers V
association statistic (cramers_v), the one-way ANOVA table
(categorical_and_numeric_correlation) and Wilson-interval prevalence
estimation (count_prevalence_rate).

The Python code is embedded shallowly:

  - a numeric column is a list of rational values; a possibly-missing
    numeric value is an Option (none models a float NaN cell);
  - a categorical column is a list over an arbitrary type with decidable
    equality (the model carries no missing categorical labels, matching
    the use of these helpers on fully observed label columns);
  - Python floats are modelled as exact rationals or reals.  A float NaN
    produced by an operation (0/0, mean of an empty column, square root
    of a negative number) is modelled as none;
  - a library call that raises is modelled with Except; the error types
    list exactly the raises the called libraries can produce on these
    code paths.

Library semantics embedded here, from the sources of the libraries the
repository calls:

  - pandas Series.quantile(q) (default linear interpolation): sort the
    non-missing values, take position q * (m - 1), and interpolate
    linearly between the two neighbouring order statistics;
  - pandas DataFrame.tail(n): the last n rows when n is positive, no rows
    when n = 0, and all rows but the first |n| when n is negative;
  - pandas DataFrame.query on the f-string of line 49: the bounds are
    interpolated as text.  A finite bound becomes a numeric literal and a
    comparison of a NaN cell against it is false, so such a row is
    dropped; a NaN bound however becomes the bare name nan, which the
    pandas eval scope does not define (it knows inf but not nan), so
    query raises pandas.errors.UndefinedVariableError instead of
    returning a frame.  The bounds are NaN exactly when the column has no
    non-missing value;
  - scipy.stats.chi2_contingency(table) raises ValueError on an empty
    table and on a zero expected frequency, returns the statistic 0.0
    when the table has zero degrees of freedom, and by default applies
    the Yates continuity correction exactly when dof = 1, moving each
    observed count toward its expected count by min(0.5, |diff|);
  - scipy.stats.f_oneway raises TypeError when given fewer than two
    samples (the condition the spec names InsufficientGroupsError), and
    only warns, returning NaN, on degenerate data;
  - statsmodels proportion_confint(count, nobs, alpha=0.05,
    method="wilson") computes the closed-form Wilson score interval with
    critical value norm.isf(0.025); with nobs = 0 the float division
    0/0 yields NaN bounds rather than an error.
-/

namespace EDA

/-! Model of pandas pieces used by find_outliers (src/utils.py lines 31-52). -/

/-- Order on possibly missing column values used when sorting rows by a
column: missing values sort last (pandas sort_values, na_position last). -/
def key_le : Option ℚ → Option ℚ → Prop
  | some a, some b => a ≤ b
  | some _, none => True
  | none, some _ => False
  | none, none => True

instance : DecidableRel key_le := fun a b =>
  match a, b with
  | some a, some b => inferInstanceAs (Decidable (a ≤ b))
  | some _, none => inferInstanceAs (Decidable True)
  | none, some _ => inferInstanceAs (Decidable False)
  | none, none => inferInstanceAs (Decidable True)

/-- pandas DataFrame.sort_values(col): sort rows ascending by the value of
one column, missing values last. -/
def sort_values {ρ : Type} (col : ρ → Option ℚ) (rows : List ρ) : List ρ :=
  List.insertionSort (fun a b => key_le (col a) (col b)) rows

/-- pandas Series.quantile(q) with the default linear interpolation:
missing values are dropped by the caller, the remaining values are
sorted, and the value at fractional position q * (m - 1) is obtained by
linear interpolation between the two closest order statistics.  On an
empty list of values the result is NaN (none). -/
def quantile (vals : List ℚ) (q : ℚ) : Option ℚ :=
  let s := List.insertionSort (fun a b : ℚ => a ≤ b) vals
  if s.length = 0 then none
  else
    let pos : ℚ := q * ((s.length - 1 : ℕ) : ℚ)
    let i : ℕ := (⌊pos⌋).toNat
    let g : ℚ := pos - (i : ℚ)
    if i + 1 < s.length then some (s.getD i 0 + g * (s.getD (i + 1) 0 - s.getD i 0))
    else some (s.getD i 0)

/-- Lines 43-47 of find_outliers: Q1, Q3, IQR = Q3 - Q1, and the pair
(lower, upper) = (Q1 - 1.5 IQR, Q3 + 1.5 IQR).  none models the NaN
bounds obtained when the column has no non-missing value. -/
def iqr_bounds (vals : List ℚ) : Option (ℚ × ℚ) :=
  match quantile vals (1/4), quantile vals (3/4) with
  | some q1, some q3 => some (q1 - 3/2 * (q3 - q1), q3 + 3/2 * (q3 - q1))
  | _, _ => none

/-- The raise pandas can produce on this code path:
pandas.errors.UndefinedVariableError, from the unresolvable name nan
that a NaN quartile bound leaves in the query string of line 49. -/
inductive PandasError : Type
  | undefinedVariable : PandasError
deriving DecidableEq

/-- The row predicate of the query on line 49 once both bounds are
finite numeric literals: column < lower or column > upper.  A missing
cell compares false against both bounds, so the row is dropped. -/
def outlier_row {ρ : Type} (col : ρ → Option ℚ) (lb ub : ℚ) (r : ρ) : Bool :=
  match col r with
  | some v => decide (v < lb ∨ ub < v)
  | none => false

/-- pandas DataFrame.tail(n): the last n rows for n positive, no rows for
n = 0, and all but the first |n| rows for n negative. -/
def pd_tail {ρ : Type} (rows : List ρ) (n : ℤ) : List ρ :=
  if n = 0 then []
  else if 0 < n then rows.drop (rows.length - n.toNat)
  else rows.drop (-n).toNat

/-- find_outliers(df, col, outliers_num) from src/utils.py lines 31-52:
IQR bounds from the quartiles of the column, then
df.query(col < lower or col > upper).sort_values(col).tail(outliers_num).
A row is a value of an arbitrary type with a column accessor.  When the
column has no non-missing value the quartiles are NaN and the query
string holds the bare name nan, so pandas raises
UndefinedVariableError; otherwise the bounds are finite literals and
query filters, sort_values sorts and tail truncates. -/
def find_outliers {ρ : Type} (rows : List ρ) (col : ρ → Option ℚ) (outliers_num : ℤ) :
    Except PandasError (List ρ) :=
  match iqr_bounds (rows.filterMap col) with
  | none => .error .undefinedVariable
  | some (lb, ub) =>
      .ok (pd_tail (sort_values col (rows.filter (fun r => outlier_row col lb ub r))) outliers_num)

/-- The dataset of the IQR boundary test case: [1,...,9,100], each row
being its own column value. -/
def ds_boundary : List ℚ := [1, 2, 3, 4, 5, 6, 7, 8, 9, 100]

/-! Model of pd.crosstab and scipy.stats.chi2_contingency as used by
cramers_v (src/utils.py lines 554-570).  Two equal-length categorical
columns are paired elementwise (zip); the contingency table of the pair
list p has one row per distinct first component, one column per distinct
second component, and integer cell counts. -/

/-- The ValueError raises scipy.stats.chi2_contingency can produce on
this code path: an empty table, or a zero entry in the internally
computed table of expected frequencies. -/
inductive PyError : Type
  | noData : PyError
  | zeroExpected : PyError
deriving DecidableEq

/-- An iterated sum over two index lists. -/
def sum2 {γ δ M : Type} [AddCommMonoid M] (R : List γ) (C : List δ) (f : γ → δ → M) : M :=
  (R.map (fun a => (C.map (fun b => f a b)).sum)).sum

variable {α β : Type} [DecidableEq α] [DecidableEq β]

/-- Row labels of the contingency table: the distinct observed values of
the first column. -/
def row_labels (p : List (α × β)) : List α := (p.map Prod.fst).dedup

/-- Column labels of the contingency table: the distinct observed values
of the second column. -/
def col_labels (p : List (α × β)) : List β := (p.map Prod.snd).dedup

/-- One cell of the contingency table: how many paired observations have
first component a and second component b. -/
def cell_count (p : List (α × β)) (a : α) (b : β) : ℕ :=
  p.countP (fun q => decide (q.1 = a) && decide (q.2 = b))

/-- contingency_table.sum().sum() of line 568: the total count n. -/
def grand_total (p : List (α × β)) : ℕ :=
  sum2 (row_labels p) (col_labels p) (fun a b => cell_count p a b)

/-- A row marginal of the contingency table. -/
def row_sum (p : List (α × β)) (a : α) : ℕ :=
  ((col_labels p).map (fun b => cell_count p a b)).sum

/-- A column marginal of the contingency table. -/
def col_sum (p : List (α × β)) (b : β) : ℕ :=
  ((row_labels p).map (fun a => cell_count p a b)).sum

/-- scipy expected_freq: outer product of the marginals over the total. -/
def expected_freq (p : List (α × β)) (a : α) (b : β) : ℚ :=
  ((row_sum p a * col_sum p b : ℕ) : ℚ) / ((grand_total p : ℕ) : ℚ)

/-- Degrees of freedom of the table, (r - 1)(k - 1). -/
def contingency_dof (p : List (α × β)) : ℕ :=
  ((row_labels p).length - 1) * ((col_labels p).length - 1)

/-- numpy sign. -/
def np_sign (q : ℚ) : ℚ := if q < 0 then -1 else if q = 0 then 0 else 1

/-- The Yates continuity correction as scipy applies it when dof = 1 and
correction is left at its default True: each observed count moves toward
its expected count by min(0.5, |expected - observed|). -/
def yates_adjusted (o e : ℚ) : ℚ := o + min (1/2) |e - o| * np_sign (e - o)

/-- One cell of the Pearson statistic: squared deviation over expected. -/
def sq_dev_term (o e : ℚ) : ℚ := (o - e) ^ 2 / e

/-- scipy.stats.chi2_contingency(table)[0] with default arguments
(correction=True, lambda None, i.e. the Pearson statistic), on the
contingency table of the pair list p: ValueError on an empty table or a
zero expected frequency; statistic 0.0 when dof = 0; Yates-corrected
Pearson sum when dof = 1; plain Pearson sum otherwise. -/
def chi2_contingency (p : List (α × β)) : Except PyError ℚ :=
  if (row_labels p).length = 0 ∨ (col_labels p).length = 0 then .error .noData
  else if (row_labels p).any (fun a => (col_labels p).any (fun b => decide (expected_freq p a b = 0))) then
    .error .zeroExpected
  else if contingency_dof p = 0 then .ok 0
  else if contingency_dof p = 1 then
    .ok (sum2 (row_labels p) (col_labels p) (fun a b =>
      sq_dev_term (yates_adjusted ((cell_count p a b : ℕ) : ℚ) (expected_freq p a b)) (expected_freq p a b)))
  else
    .ok (sum2 (row_labels p) (col_labels p) (fun a b =>
      sq_dev_term ((cell_count p a b : ℕ) : ℚ) (expected_freq p a b)))

/-- The quantity under the square root on line 570 of cramers_v:
chi2 / (n * (min(r, k) - 1)), propagating the chi2_contingency error.
The float division is by n * (min(r, k) - 1); when that denominator is
zero the division of the (then provably zero) statistic is the float
NaN, modelled as none.  min(r, k) - 1 is computed over the integers, as
Python does. -/
def cramers_v_radicand (x : List α) (y : List β) : Except PyError (Option ℚ) :=
  (chi2_contingency (x.zip y)).map (fun chi2 =>
    let n : ℚ := ((grand_total (x.zip y) : ℕ) : ℚ)
    let d : ℚ := n * (((min (row_labels (x.zip y)).length (col_labels (x.zip y)).length : ℤ) - 1 : ℤ) : ℚ)
    if d = 0 then none else some (chi2 / d))

/-- cramers_v(x, y) from src/utils.py lines 554-570:
np.sqrt(chi2 / (n * (min(r, k) - 1))) over the contingency table of x
against y, where a ValueError from chi2_contingency propagates and a NaN
result (the degenerate one-row or one-column table) is none. -/
noncomputable def cramers_v (x : List α) (y : List β) : Except PyError (Option ℝ) :=
  (cramers_v_radicand x y).map (fun o => o.map (fun q => Real.sqrt (q : ℝ)))

/-- The value the spec ascribes to cramers_v, written from the spec
sentences: the Pearson chi-squared statistic over the table with no
continuity correction, then sqrt(chi2 / (n (min(r, k) - 1))). -/
def chi2_pearson_spec (p : List (α × β)) : ℚ :=
  sum2 (row_labels p) (col_labels p) (fun a b =>
    sq_dev_term ((cell_count p a b : ℕ) : ℚ) (expected_freq p a b))

/-- The spec formula for cramers_v as a real number (claim C1). -/
noncomputable def cramers_v_spec (x : List α) (y : List β) : ℝ :=
  Real.sqrt (((chi2_pearson_spec (x.zip y) /
    ((grand_total (x.zip y) : ℚ) *
      (((min (row_labels (x.zip y)).length (col_labels (x.zip y)).length : ℤ) - 1 : ℤ) : ℚ))) : ℚ) : ℝ)

/-- One cell of the Yates-corrected Pearson statistic in closed form:
(max(|expected - observed| - 0.5, 0))^2 / expected. -/
def yates_term_spec (o e : ℚ) : ℚ := (max (|e - o| - 1/2) 0) ^ 2 / e

/-- The amended spec statistic for claim C1: the Pearson chi-squared
statistic with the Yates continuity correction applied exactly when the
contingency table is 2 by 2, and no correction otherwise. -/
def chi2_spec_amended (p : List (α × β)) : ℚ :=
  if (row_labels p).length = 2 ∧ (col_labels p).length = 2 then
    sum2 (row_labels p) (col_labels p) (fun a b =>
      yates_term_spec ((cell_count p a b : ℕ) : ℚ) (expected_freq p a b))
  else chi2_pearson_spec p

/-- The amended spec formula for cramers_v as a real number. -/
noncomputable def cramers_v_amended (x : List α) (y : List β) : ℝ :=
  Real.sqrt (((chi2_spec_amended (x.zip y) /
    ((grand_total (x.zip y) : ℚ) *
      (((min (row_labels (x.zip y)).length (col_labels (x.zip y)).length : ℤ) - 1 : ℤ) : ℚ))) : ℚ) : ℝ)

/-! Model of scipy.stats.f_oneway as used by
categorical_and_numeric_correlation (src/utils.py lines 647-672). -/

/-- The raise scipy.stats.f_oneway produces when called with fewer than
two samples, TypeError: at least two inputs are required.  This is the
failure condition the spec labels InsufficientGroupsError. -/
inductive AnovaError : Type
  | insufficientGroups : AnovaError
deriving DecidableEq

/-- A categorical column on the ANOVA path is a list of possibly missing
labels; none is a NaN cell.  pandas Series.unique returns the distinct
labels of the column, a missing label included once (the order of the
labels does not affect anything proved here). -/
def unique_labels (l : List (Option α)) : List (Option α) := l.dedup

/-- The elementwise comparison df[col] == category: a NaN cell equals
nothing, and the NaN category equals nothing either (IEEE NaN is not
equal to itself), so the selection for the NaN label is always empty. -/
def pd_label_eq (x c : Option α) : Bool :=
  match x, c with
  | some b, some a => decide (b = a)
  | _, _ => false

/-- df[df[col] == category][numeric_feature] of line 665: the numeric
values at the rows whose categorical cell compares equal to the given
label. -/
def group_values (cat : List (Option α)) (num : List ℚ) (c : Option α) : List ℚ :=
  ((cat.zip num).filter (fun q => pd_label_eq q.1 c)).map Prod.snd

/-- The classical one-way F statistic of a list of non-empty samples:
between-group mean square over within-group mean square.  NaN (none) on
the degenerate data where scipy only warns: zero within-group degrees of
freedom or zero within-group variance. -/
def f_stat (samples : List (List ℚ)) : Option ℚ :=
  let k : ℚ := (samples.length : ℕ)
  let bigN : ℚ := ((samples.map List.length).sum : ℕ)
  let grand : ℚ := (samples.map List.sum).sum / bigN
  let ssb : ℚ := (samples.map (fun s => (s.length : ℚ) * (s.sum / (s.length : ℚ) - grand) ^ 2)).sum
  let ssw : ℚ := (samples.map (fun s => (s.map (fun x => (x - s.sum / (s.length : ℚ)) ^ 2)).sum)).sum
  if bigN - k = 0 ∨ ssw = 0 then none
  else some ((ssb / (k - 1)) / (ssw / (bigN - k)))

/-- scipy.stats.f_oneway(*samples), returning the F statistic: TypeError
when fewer than two samples are given; NaN (none) when a sample is
empty, where scipy only warns; otherwise the one-way F statistic.  The
p value the code stores is the F distribution survival function of this
statistic; no claim constrains its numeric value, so the model records
the statistic itself. -/
def f_oneway (samples : List (List ℚ)) : Except AnovaError (Option ℚ) :=
  if samples.length < 2 then .error .insufficientGroups
  else if samples.any (fun s => s.length = 0) then .ok none
  else .ok (f_stat samples)

/-- categorical_and_numeric_correlation(df, numeric_feature,
categorical_columns) from src/utils.py lines 647-672: for each listed
categorical column, take one group of numeric values per label that
unique() returns (the group of a missing label being empty) and run the
one-way ANOVA across the groups; the first raise aborts the whole call.
A categorical column is passed as a name paired with its cells. -/
def categorical_and_numeric_correlation (df_cats : List (String × List (Option α)))
    (numeric : List ℚ) : Except AnovaError (List (String × Option ℚ)) :=
  df_cats.mapM (fun c =>
    (f_oneway ((unique_labels c.2).map (fun lab => group_values c.2 numeric lab))).map
      (fun f => (c.1, f)))

/-! Model of statsmodels proportion_confint (method wilson) and pandas
Series.mean as used by count_prevalence_rate (src/utils.py lines
704-741). -/

/-- The critical value statsmodels uses for a 95 percent Wilson interval:
the double scipy.stats.norm.isf(0.025), the 97.5th percentile of the
standard normal distribution. -/
def z_crit : ℚ := 1.959963984540054

/-- pandas Series.mean over a boolean 0/1 column: sum over count, NaN
(none) when the column is empty. -/
def pd_mean (l : List Bool) : Option ℚ :=
  if l.length = 0 then none
  else some (((l.countP (fun b => b) : ℕ) : ℚ) / ((l.length : ℕ) : ℚ))

/-- statsmodels proportion_confint(count, nobs, alpha=0.05,
method="wilson"): the closed-form Wilson score interval
(center - dist, center + dist) with center = (q + z^2/(2n)) / (1 + z^2/n)
and dist = z sqrt(q(1-q)/n + z^2/(4n^2)) / (1 + z^2/n), q = count/nobs.
With nobs = 0 the float arithmetic produces NaN bounds (none); a
negative radicand (impossible for a genuine 0/1 column) would likewise
give NaN from np.sqrt. -/
noncomputable def wilson_confint (count : ℚ) (nobs : ℕ) : Option (ℝ × ℝ) :=
  if nobs = 0 then none
  else
    let n : ℚ := (nobs : ℕ)
    let q : ℚ := count / n
    let denom : ℚ := 1 + z_crit ^ 2 / n
    let center : ℚ := (q + z_crit ^ 2 / (2 * n)) / denom
    let rad : ℚ := q * (1 - q) / n + z_crit ^ 2 / (4 * n ^ 2)
    if rad < 0 then none
    else some ((center : ℝ) - (z_crit : ℝ) * Real.sqrt (rad : ℝ) / (denom : ℝ),
               (center : ℝ) + (z_crit : ℝ) * Real.sqrt (rad : ℝ) / (denom : ℝ))

/-- A dataset for count_prevalence_rate: a row count and, for each
condition name, a boolean 0/1 column. -/
structure BinDF : Type where
  nrows : ℕ
  col : String → List Bool

/-- One row of the table count_prevalence_rate returns. -/
structure PrevRow : Type where
  cond : String
  prevalence : Option ℚ
  lower : Option ℝ
  upper : Option ℝ

/-- count_prevalence_rate(df, conditions) from src/utils.py lines
704-741: per condition, the column mean as the prevalence and the 95
percent Wilson interval of (column sum, row count of the frame). -/
noncomputable def count_prevalence_rate (df : BinDF) (conditions : List String) : List PrevRow :=
  conditions.map (fun c =>
    let column := df.col c
    let ci := wilson_confint ((column.countP (fun b => b) : ℕ) : ℚ) df.nrows
    { cond := c
      prevalence := pd_mean column
      lower := ci.map Prod.fst
      upper := ci.map Prod.snd })

/-- The dataset of the Wilson known-value test: a single binary column
with 50 positives among 100 rows. -/
def df_fifty : BinDF :=
  { nrows := 100, col := fun _ => List.replicate 50 true ++ List.replicate 50 false }

/-! Helper lemmas about the find_outliers pipeline. -/

theorem key_le_total (a b : Option ℚ) : key_le a b ∨ key_le b a := by
  cases a <;> cases b <;> simp [key_le]
  exact le_total _ _

theorem key_le_trans {a b c : Option ℚ} (hab : key_le a b) (hbc : key_le b c) : key_le a c := by
  cases a <;> cases b <;> cases c <;> simp_all [key_le]
  exact le_trans hab hbc

theorem sort_values_perm {ρ : Type} (col : ρ → Option ℚ) (rows : List ρ) :
    (sort_values col rows).Perm rows :=
  List.perm_insertionSort _ _

theorem sort_values_pairwise {ρ : Type} (col : ρ → Option ℚ) (rows : List ρ) :
    List.Pairwise (fun a b => key_le (col a) (col b)) (sort_values col rows) := by
  haveI : IsTotal ρ (fun a b => key_le (col a) (col b)) := ⟨fun a b => key_le_total _ _⟩
  haveI : IsTrans ρ (fun a b => key_le (col a) (col b)) := ⟨fun _ _ _ => key_le_trans⟩
  exact List.sorted_insertionSort _ _

theorem pd_tail_sublist {ρ : Type} (rows : List ρ) (n : ℤ) : (pd_tail rows n).Sublist rows := by
  unfold pd_tail
  by_cases h0 : n = 0
  · simp [h0]
  · by_cases hp : 0 < n <;> simp [h0, hp, List.drop_sublist]

theorem length_pd_tail_le {ρ : Type} (rows : List ρ) {n : ℤ} (h : 0 ≤ n) :
    ((pd_tail rows n).length : ℤ) ≤ n := by
  unfold pd_tail
  by_cases h0 : n = 0
  · simp [h0]
  · have hp : 0 < n := lt_of_le_of_ne h (Ne.symm h0)
    simp only [h0, hp, if_false, if_true, List.length_drop]
    omega

theorem outlier_row_some {ρ : Type} {col : ρ → Option ℚ} {lb ub : ℚ} {r : ρ}
    (h : outlier_row col lb ub r = true) : (col r).isSome := by
  unfold outlier_row at h
  cases hc : col r <;> rw [hc] at h
  · simp at h
  · simp

theorem mem_selection {ρ : Type} {rows : List ρ} {col : ρ → Option ℚ} {lb ub : ℚ} {num : ℤ}
    {r : ρ} (h : r ∈ pd_tail (sort_values col (rows.filter (fun s => outlier_row col lb ub s))) num) :
    r ∈ rows ∧ (col r).isSome := by
  have h1 := (pd_tail_sublist _ num).mem h
  have h2 := (sort_values_perm col _).mem_iff.mp h1
  have h3 := List.mem_filter.mp h2
  exact ⟨h3.1, outlier_row_some h3.2⟩

theorem selection_pairwise {ρ : Type} (rows : List ρ) (col : ρ → Option ℚ) (lb ub : ℚ)
    (num : ℤ) :
    List.Pairwise (fun a b => key_le (col a) (col b))
      (pd_tail (sort_values col (rows.filter (fun s => outlier_row col lb ub s))) num) :=
  List.Pairwise.sublist (pd_tail_sublist _ num) (sort_values_pairwise col _)

theorem find_outliers_ok_inv {ρ : Type} {rows : List ρ} {col : ρ → Option ℚ} {num : ℤ}
    {res : List ρ} (heq : find_outliers rows col num = .ok res) :
    ∃ lb ub, iqr_bounds (rows.filterMap col) = some (lb, ub) ∧
      res = pd_tail (sort_values col (rows.filter (fun s => outlier_row col lb ub s))) num := by
  unfold find_outliers at heq
  cases hb : iqr_bounds (rows.filterMap col) with
  | none =>
    rw [hb] at heq
    exact absurd heq (by simp)
  | some b =>
    obtain ⟨lb, ub⟩ := b
    rw [hb] at heq
    injection heq with h
    exact ⟨lb, ub, rfl, h.symm⟩

theorem quantile_isSome (vals : List ℚ) (q : ℚ) (h : vals ≠ []) :
    ∃ v, quantile vals q = some v := by
  unfold quantile
  have hlen : ¬ ((List.insertionSort (fun a b : ℚ => a ≤ b) vals).length = 0) := by
    rw [(List.perm_insertionSort _ vals).length_eq]
    exact fun hz => h (List.length_eq_zero.mp hz)
  rw [if_neg hlen]
  simp only []
  split_ifs <;> exact ⟨_, rfl⟩

theorem iqr_bounds_isSome {vals : List ℚ} (h : vals ≠ []) :
    ∃ lb ub, iqr_bounds vals = some (lb, ub) := by
  obtain ⟨q1, h1⟩ := quantile_isSome vals (1/4) h
  obtain ⟨q3, h3⟩ := quantile_isSome vals (3/4) h
  refine ⟨q1 - 3/2 * (q3 - q1), q3 + 3/2 * (q3 - q1), ?_⟩
  unfold iqr_bounds
  rw [h1, h3]

/-! Claims C4, C7 and C10 about find_outliers. -/

/-- Claim C4: find_outliers computes Q1 and Q3 by linear interpolation
between closest ranks, uses the 1.5 IQR fences, selects the rows outside
them, sorts ascending and keeps the last limit rows; on the dataset
[1,...,9,100] the quartiles are Q1 = 3.25 and Q3 = 7.75, the upper fence
is 14.5, and only the row with value 100 is flagged. -/
theorem claim_C4_find_outliers_boundary :
    quantile ds_boundary (1/4) = some (13/4) ∧
    quantile ds_boundary (3/4) = some (31/4) ∧
    iqr_bounds ds_boundary = some (-(7/2), 29/2) ∧
    find_outliers ds_boundary some 5 = .ok [(100 : ℚ)] := by
  refine ⟨?_, ?_, ?_, ?_⟩
  · norm_num [quantile, ds_boundary, List.insertionSort, List.orderedInsert, List.getD, Int.toNat]
  · norm_num [quantile, ds_boundary, List.insertionSort, List.orderedInsert, List.getD, Int.toNat]
  · norm_num [iqr_bounds, quantile, ds_boundary, List.insertionSort, List.orderedInsert,
      List.getD, Int.toNat]
  · unfold find_outliers
    rw [show ds_boundary.filterMap some = ds_boundary by
          norm_num [ds_boundary, List.filterMap],
        show iqr_bounds ds_boundary = some (-(7/2), 29/2) by
          norm_num [iqr_bounds, quantile, ds_boundary, List.insertionSort, List.orderedInsert,
            List.getD, Int.toNat]]
    norm_num [ds_boundary, List.filter, outlier_row, sort_values, pd_tail,
      List.insertionSort, List.orderedInsert, key_le]

/-- Claim C10 (amended): for every dataset, column and non-negative
limit, any row sequence find_outliers returns has at most limit rows,
every returned row is a row of the input with a non-missing column
value, and the rows are in ascending order of the column.  (With a
negative limit the bound on the number of rows fails, see the
counterexample.) -/
theorem claim_C10_find_outliers_shape {ρ : Type} (rows : List ρ) (col : ρ → Option ℚ)
    (lim : ℤ) (hlim : 0 ≤ lim) :
    ∀ res, find_outliers rows col lim = .ok res →
      ((res.length : ℤ) ≤ lim ∧
       (∀ r ∈ res, r ∈ rows ∧ (col r).isSome) ∧
       List.Pairwise (fun a b => ∀ va vb, col a = some va → col b = some vb → va ≤ vb) res) := by
  intro res heq
  obtain ⟨lb, ub, _, rfl⟩ := find_outliers_ok_inv heq
  refine ⟨length_pd_tail_le _ hlim, fun r hr => mem_selection hr, ?_⟩
  refine (selection_pairwise rows col lb ub lim).imp ?_
  intro a b hab va vb ha hb
  rw [ha, hb] at hab
  exact hab

/-- Witness for claim C10 at the boundary dataset with limit 5. -/
theorem claim_C10_witness :
    (0 : ℤ) ≤ 5 ∧
    (∀ res, find_outliers ds_boundary some 5 = .ok res →
      ((res.length : ℤ) ≤ 5 ∧
       (∀ r ∈ res, r ∈ ds_boundary ∧ (some r).isSome) ∧
       List.Pairwise (fun a b : ℚ => ∀ va vb, some a = some va → some b = some vb → va ≤ vb)
         res)) :=
  ⟨by norm_num, claim_C10_find_outliers_shape ds_boundary some 5 (by norm_num)⟩

/-- Counterexample for claim C10 as stated: with the negative limit -1
(pandas tail then drops the first row instead of keeping at most -1
rows), the returned row count is not at most the limit. -/
theorem claim_C10_counterexample :
    ∃ res, find_outliers ds_boundary some (-1) = .ok res ∧ ¬ ((res.length : ℤ) ≤ -1) := by
  refine ⟨[], ?_, by norm_num⟩
  unfold find_outliers
  rw [show ds_boundary.filterMap some = ds_boundary by
        norm_num [ds_boundary, List.filterMap],
      show iqr_bounds ds_boundary = some (-(7/2), 29/2) by
        norm_num [iqr_bounds, quantile, ds_boundary, List.insertionSort, List.orderedInsert,
          List.getD, Int.toNat]]
  norm_num [ds_boundary, List.filter, outlier_row, sort_values, pd_tail,
    List.insertionSort, List.orderedInsert, key_le]

/-- Claim C7 (amended): find_outliers never raises an EmptyInputError
(no such class exists).  With between 1 and 3 non-missing values it does
not fail at all: it returns the IQR selection computed from the
available values (every returned row being an input row with a
non-missing value).  With no non-missing value the quartiles are NaN and
the query string holds the unresolvable name nan, so the call fails with
the pandas UndefinedVariableError instead. -/
theorem claim_C7_small_column {ρ : Type} (rows : List ρ) (col : ρ → Option ℚ) (lim : ℤ)
    (h : (rows.filterMap col).length < 4) :
    ((rows.filterMap col).length ≠ 0 →
      ∃ res, find_outliers rows col lim = .ok res ∧ ∀ r ∈ res, r ∈ rows ∧ (col r).isSome) ∧
    ((rows.filterMap col).length = 0 →
      find_outliers rows col lim = .error .undefinedVariable) := by
  constructor
  · intro hne
    have hvals : rows.filterMap col ≠ [] := fun hn => hne (by rw [hn]; rfl)
    obtain ⟨lb, ub, hb⟩ := iqr_bounds_isSome hvals
    refine ⟨pd_tail (sort_values col (rows.filter (fun s => outlier_row col lb ub s))) lim,
      ?_, fun r hr => mem_selection hr⟩
    unfold find_outliers
    rw [hb]
  · intro hz
    have hnil : rows.filterMap col = [] := List.length_eq_zero.mp hz
    unfold find_outliers
    rw [hnil]
    rfl

/-- Witness for claim C7: a column with only two non-missing values. -/
theorem claim_C7_witness :
    (([(1 : ℚ), 2].filterMap some).length < 4) ∧
    (((([(1 : ℚ), 2].filterMap some).length ≠ 0 →
        ∃ res, find_outliers [(1 : ℚ), 2] some 3 = .ok res ∧
          ∀ r ∈ res, r ∈ [(1 : ℚ), 2] ∧ (some r).isSome) ∧
      (([(1 : ℚ), 2].filterMap some).length = 0 →
        find_outliers [(1 : ℚ), 2] some 3 = .error .undefinedVariable))) :=
  ⟨by norm_num [List.filterMap],
   claim_C7_small_column [(1 : ℚ), 2] some 3 (by norm_num [List.filterMap])⟩

/-- Counterexample for claim C7 as stated: on a column with only two
non-missing values (fewer than 4) the function does not fail with any
error; it returns a row sequence (here the empty one). -/
theorem claim_C7_counterexample : find_outliers [(1 : ℚ), 2] some 5 = .ok [] := by
  unfold find_outliers
  rw [show ([(1 : ℚ), 2].filterMap some) = [(1 : ℚ), 2] by norm_num [List.filterMap],
      show iqr_bounds [(1 : ℚ), 2] = some (1/2, 5/2) by
        norm_num [iqr_bounds, quantile, List.insertionSort, List.orderedInsert,
          List.getD, Int.toNat]]
  norm_num [List.filter, outlier_row, sort_values, pd_tail,
    List.insertionSort, List.orderedInsert, key_le]

/-! The Wilson interval: the four inequalities of claim C3 as a fact
about real numbers, then the claims about count_prevalence_rate. -/

theorem wilson_key {q n z : ℝ} (hq0 : 0 ≤ q) (hq1 : q ≤ 1) (hn : 1 ≤ n) (hz : 0 < z) :
    0 ≤ (q + z^2/(2*n))/(1 + z^2/n) - z * Real.sqrt (q*(1-q)/n + z^2/(4*n^2)) / (1 + z^2/n) ∧
    (q + z^2/(2*n))/(1 + z^2/n) + z * Real.sqrt (q*(1-q)/n + z^2/(4*n^2)) / (1 + z^2/n) ≤ 1 ∧
    (q + z^2/(2*n))/(1 + z^2/n) - z * Real.sqrt (q*(1-q)/n + z^2/(4*n^2)) / (1 + z^2/n) ≤ q ∧
    q ≤ (q + z^2/(2*n))/(1 + z^2/n) + z * Real.sqrt (q*(1-q)/n + z^2/(4*n^2)) / (1 + z^2/n) := by
  have hn0 : (0:ℝ) < n := lt_of_lt_of_le one_pos hn
  have h1q : 0 ≤ 1 - q := by linarith
  have hrad : 0 ≤ q*(1-q)/n + z^2/(4*n^2) :=
    add_nonneg (div_nonneg (mul_nonneg hq0 h1q) hn0.le) (by positivity)
  set s := Real.sqrt (q*(1-q)/n + z^2/(4*n^2)) with hs_def
  have hs0 : 0 ≤ s := Real.sqrt_nonneg _
  have hs2 : s^2 = q*(1-q)/n + z^2/(4*n^2) := Real.sq_sqrt hrad
  have hD : (0:ℝ) < 1 + z^2/n := by positivity
  have hzs0 : 0 ≤ z * s := mul_nonneg hz.le hs0
  have hzs_sq : (z*s)^2 = z^2*(q*(1-q))/n + z^4/(4*n^2) := by
    rw [mul_pow, hs2]; field_simp; ring
  have key1 : z * s ≤ q + z^2/(2*n) := by
    have hA : (0:ℝ) ≤ q + z^2/(2*n) := by positivity
    have hsq : (z*s)^2 ≤ (q + z^2/(2*n))^2 := by
      rw [hzs_sq]
      have hdiff : (q + z^2/(2*n))^2 - (z^2*(q*(1-q))/n + z^4/(4*n^2)) = q^2 * (1 + z^2/n) := by
        field_simp; ring
      nlinarith [mul_nonneg (sq_nonneg q) hD.le]
    calc z*s = Real.sqrt ((z*s)^2) := (Real.sqrt_sq hzs0).symm
      _ ≤ Real.sqrt ((q + z^2/(2*n))^2) := Real.sqrt_le_sqrt hsq
      _ = q + z^2/(2*n) := Real.sqrt_sq hA
  have key2 : z * s ≤ (1-q) + z^2/(2*n) := by
    have hA : (0:ℝ) ≤ (1-q) + z^2/(2*n) := by positivity
    have hsq : (z*s)^2 ≤ ((1-q) + z^2/(2*n))^2 := by
      rw [hzs_sq]
      have hdiff : ((1-q) + z^2/(2*n))^2 - (z^2*(q*(1-q))/n + z^4/(4*n^2)) = (1-q)^2 * (1 + z^2/n) := by
        field_simp; ring
      nlinarith [mul_nonneg (sq_nonneg (1-q)) hD.le]
    calc z*s = Real.sqrt ((z*s)^2) := (Real.sqrt_sq hzs0).symm
      _ ≤ Real.sqrt (((1-q) + z^2/(2*n))^2) := Real.sqrt_le_sqrt hsq
      _ = (1-q) + z^2/(2*n) := Real.sqrt_sq hA
  have key3 : |z^2/n * (1/2 - q)| ≤ z * s := by
    have hsq : (z^2/n * (1/2 - q))^2 ≤ (z*s)^2 := by
      rw [hzs_sq]
      have hdiff : (z^2*(q*(1-q))/n + z^4/(4*n^2)) - (z^2/n * (1/2 - q))^2
          = z^2*(q*(1-q))/n * (1 + z^2/n) := by
        field_simp; ring
      nlinarith [mul_nonneg (div_nonneg (mul_nonneg (sq_nonneg z) (mul_nonneg hq0 h1q)) hn0.le) hD.le]
    calc |z^2/n * (1/2 - q)| = Real.sqrt ((z^2/n * (1/2-q))^2) := (Real.sqrt_sq_eq_abs _).symm
      _ ≤ Real.sqrt ((z*s)^2) := Real.sqrt_le_sqrt hsq
      _ = z*s := Real.sqrt_sq hzs0
  have halg1 : z^2/n - z^2/(2*n) = z^2/(2*n) := by field_simp; ring
  have halg2 : z^2/(2*n) - q * (z^2/n) = z^2/n * (1/2 - q) := by field_simp; ring
  refine ⟨?_, ?_, ?_, ?_⟩
  · rw [div_sub_div_same]
    exact div_nonneg (by linarith [key1]) hD.le
  · rw [div_add_div_same]
    apply (div_le_one hD).mpr
    linarith [key2, halg1]
  · rw [div_sub_div_same]
    apply (div_le_iff₀ hD).mpr
    have h3 := le_trans (le_abs_self _) key3
    have halg3 : q * (1 + z^2/n) = q + q * (z^2/n) := by ring
    linarith [h3, halg2, halg3]
  · rw [div_add_div_same]
    apply (le_div_iff₀ hD).mpr
    have h4 := le_trans (neg_le_abs _) key3
    have halg3 : q * (1 + z^2/n) = q + q * (z^2/n) := by ring
    linarith [h4, halg2, halg3]

theorem wilson_confint_spec (t : ℚ) (m : ℕ) (hm : 1 ≤ m) (ht0 : 0 ≤ t) (htm : t ≤ (m : ℚ)) :
    ∃ l u : ℝ, wilson_confint t m = some (l, u) ∧
      l ≤ ((t / (m : ℚ) : ℚ) : ℝ) ∧ ((t / (m : ℚ) : ℚ) : ℝ) ≤ u ∧ 0 ≤ l ∧ u ≤ 1 := by
  have hm0 : m ≠ 0 := by omega
  have hmq : (0:ℚ) < (m:ℚ) := by exact_mod_cast Nat.pos_of_ne_zero hm0
  have hq0 : (0:ℚ) ≤ t / (m:ℚ) := div_nonneg ht0 hmq.le
  have hq1 : t / (m:ℚ) ≤ 1 := (div_le_one hmq).mpr htm
  have hrad : ¬ (t / (m:ℚ) * (1 - t / (m:ℚ)) / (m:ℚ) + z_crit ^ 2 / (4 * (m:ℚ) ^ 2) < 0) := by
    push_neg
    exact add_nonneg (div_nonneg (mul_nonneg hq0 (by linarith)) hmq.le) (by positivity)
  have heq : wilson_confint t m =
      some ((((t / (m:ℚ) + z_crit ^ 2 / (2 * (m:ℚ))) / (1 + z_crit ^ 2 / (m:ℚ)) : ℚ) : ℝ) -
              (z_crit : ℝ) * Real.sqrt ((t / (m:ℚ) * (1 - t / (m:ℚ)) / (m:ℚ) + z_crit ^ 2 / (4 * (m:ℚ) ^ 2) : ℚ)) /
              ((1 + z_crit ^ 2 / (m:ℚ) : ℚ) : ℝ),
            (((t / (m:ℚ) + z_crit ^ 2 / (2 * (m:ℚ))) / (1 + z_crit ^ 2 / (m:ℚ)) : ℚ) : ℝ) +
              (z_crit : ℝ) * Real.sqrt ((t / (m:ℚ) * (1 - t / (m:ℚ)) / (m:ℚ) + z_crit ^ 2 / (4 * (m:ℚ) ^ 2) : ℚ)) /
              ((1 + z_crit ^ 2 / (m:ℚ) : ℚ) : ℝ)) := by
    simp only [wilson_confint, hm0, if_false, if_neg hrad]
  have hzq : (0:ℚ) < z_crit := by norm_num [z_crit]
  have hzr : (0:ℝ) < (z_crit : ℝ) := by exact_mod_cast hzq
  have hnr : (1:ℝ) ≤ ((m:ℕ) : ℝ) := by exact_mod_cast hm
  have hq0r : (0:ℝ) ≤ ((t:ℚ):ℝ) / ((m:ℕ):ℝ) := by exact_mod_cast hq0
  have hq1r : ((t:ℚ):ℝ) / ((m:ℕ):ℝ) ≤ 1 := by exact_mod_cast hq1
  have k := @wilson_key (((t:ℚ):ℝ) / ((m:ℕ):ℝ)) ((m:ℕ):ℝ) ((z_crit:ℚ):ℝ) hq0r hq1r hnr hzr
  refine ⟨_, _, heq, ?_, ?_, ?_, ?_⟩
  · push_cast
    exact k.2.2.1
  · push_cast
    exact k.2.2.2
  · push_cast
    exact k.1
  · push_cast
    exact k.2.1

/-- Claim C3 (amended): for every dataset with at least one row whose
condition columns have the row count of the frame, each row of the table
returned by count_prevalence_rate has defined prevalence and bounds with
lower bound at most the prevalence, prevalence at most the upper bound,
and both bounds in the unit interval.  (On the empty dataset every entry
of the returned row is NaN instead, see the counterexample.) -/
theorem claim_C3_wilson_containment (df : BinDF) (conds : List String) (h1 : 1 ≤ df.nrows)
    (h2 : ∀ c ∈ conds, (df.col c).length = df.nrows) :
    ∀ row ∈ count_prevalence_rate df conds, ∃ p l u,
      row.prevalence = some p ∧ row.lower = some l ∧ row.upper = some u ∧
      l ≤ (p : ℝ) ∧ (p : ℝ) ≤ u ∧ 0 ≤ l ∧ u ≤ 1 := by
  intro row hrow
  simp only [count_prevalence_rate, List.mem_map] at hrow
  obtain ⟨c, hc, rfl⟩ := hrow
  have hlen := h2 c hc
  have ht0 : (0:ℚ) ≤ (((df.col c).countP (fun b => b) : ℕ) : ℚ) := by positivity
  have htm : (((df.col c).countP (fun b => b) : ℕ) : ℚ) ≤ ((df.nrows : ℕ) : ℚ) := by
    have hle := List.countP_le_length (fun b => b) (l := df.col c)
    rw [hlen] at hle
    exact_mod_cast hle
  obtain ⟨l, u, hlu, hl, hu, hl0, hu1⟩ := wilson_confint_spec _ df.nrows h1 ht0 htm
  refine ⟨(((df.col c).countP (fun b => b) : ℕ) : ℚ) / ((df.nrows : ℕ) : ℚ), l, u,
    ?_, ?_, ?_, hl, hu, hl0, hu1⟩
  · have hne : df.nrows ≠ 0 := by omega
    simp only [pd_mean, hlen, hne, if_false]
  · simp only [hlu, Option.map_some']
  · simp only [hlu, Option.map_some']

/-- Witness for claim C3 at a two-row frame with one positive. -/
theorem claim_C3_witness :
    (1 ≤ (BinDF.mk 2 (fun _ => [true, false])).nrows ∧
     (∀ c ∈ ["c"], ((BinDF.mk 2 (fun _ => [true, false])).col c).length =
        (BinDF.mk 2 (fun _ => [true, false])).nrows)) ∧
    (∀ row ∈ count_prevalence_rate (BinDF.mk 2 (fun _ => [true, false])) ["c"], ∃ p l u,
      row.prevalence = some p ∧ row.lower = some l ∧ row.upper = some u ∧
      l ≤ (p : ℝ) ∧ (p : ℝ) ≤ u ∧ 0 ≤ l ∧ u ≤ 1) :=
  ⟨⟨by norm_num, fun _ _ => rfl⟩,
   claim_C3_wilson_containment _ _ (by norm_num) (fun _ _ => rfl)⟩

/-- Counterexample for claim C3 as stated: on the dataset with zero rows
the single returned row has NaN prevalence and NaN bounds, so it
satisfies no containment ordering at all. -/
theorem claim_C3_counterexample :
    ¬ (∀ row ∈ count_prevalence_rate { nrows := 0, col := fun _ => [] } ["d"], ∃ p l u,
        row.prevalence = some p ∧ row.lower = some l ∧ row.upper = some u ∧
        l ≤ (p : ℝ) ∧ (p : ℝ) ≤ u ∧ 0 ≤ l ∧ u ≤ 1) := by
  intro h
  have hmem : ({ cond := "d", prevalence := none, lower := none, upper := none } : PrevRow) ∈
      count_prevalence_rate { nrows := 0, col := fun _ => [] } ["d"] := by
    rw [show count_prevalence_rate { nrows := 0, col := fun _ => [] } ["d"] =
          [{ cond := "d", prevalence := none, lower := none, upper := none }] from rfl]
    exact List.mem_singleton_self _
  obtain ⟨p, l, u, hp, _⟩ := h _ hmem
  exact Option.noConfusion hp

/-- Claim C6 (amended): on a dataset with zero rows,
count_prevalence_rate does not fail: it returns one row per condition
whose prevalence and Wilson bounds are all NaN (the column mean of an
empty column and the float division by nobs = 0). -/
theorem claim_C6_empty_frame (df : BinDF) (conds : List String) (h : df.nrows = 0)
    (h2 : ∀ c ∈ conds, df.col c = []) :
    count_prevalence_rate df conds =
      conds.map (fun c => { cond := c, prevalence := none, lower := none, upper := none }) := by
  unfold count_prevalence_rate
  apply List.map_congr_left
  intro c hc
  rw [h2 c hc]
  simp [pd_mean, wilson_confint, h]

/-- Counterexample for claim C6 as stated: on the empty dataset the
function does not fail with any error; it returns a result table whose
single row holds NaN entries. -/
theorem claim_C6_counterexample :
    count_prevalence_rate { nrows := 0, col := fun _ => [] } ["c"] =
      [{ cond := "c", prevalence := none, lower := none, upper := none }] := rfl

/-- Witness for claim C6 (amended) on an empty two-condition frame. -/
theorem claim_C6_witness :
    ((BinDF.mk 0 (fun _ => [])).nrows = 0 ∧
      (∀ c ∈ ["a", "b"], (BinDF.mk 0 (fun _ => [])).col c = [])) ∧
    count_prevalence_rate (BinDF.mk 0 (fun _ => [])) ["a", "b"] =
      ["a", "b"].map (fun c => { cond := c, prevalence := none, lower := none, upper := none }) :=
  ⟨⟨rfl, fun _ _ => rfl⟩, claim_C6_empty_frame _ _ rfl (fun _ _ => rfl)⟩

theorem wilson_50_100_bounds : ∃ l u : ℝ, wilson_confint 50 100 = some (l, u) ∧
    (0.402 : ℝ) ≤ l ∧ l ≤ (0.406 : ℝ) ∧ (0.594 : ℝ) ≤ u ∧ u ≤ (0.598 : ℝ) := by
  have hm0 : (100 : ℕ) ≠ 0 := by norm_num
  have hrad : ¬ ((50:ℚ) / ((100:ℕ):ℚ) * (1 - (50:ℚ) / ((100:ℕ):ℚ)) / ((100:ℕ):ℚ) +
      z_crit ^ 2 / (4 * ((100:ℕ):ℚ) ^ 2) < 0) := by
    norm_num [z_crit]
  have heq : wilson_confint (50:ℚ) (100:ℕ) =
      some (((((50:ℚ) / ((100:ℕ):ℚ) + z_crit ^ 2 / (2 * ((100:ℕ):ℚ))) / (1 + z_crit ^ 2 / ((100:ℕ):ℚ)) : ℚ) : ℝ) -
              (z_crit : ℝ) * Real.sqrt (((50:ℚ) / ((100:ℕ):ℚ) * (1 - (50:ℚ) / ((100:ℕ):ℚ)) / ((100:ℕ):ℚ) + z_crit ^ 2 / (4 * ((100:ℕ):ℚ) ^ 2) : ℚ)) /
              ((1 + z_crit ^ 2 / ((100:ℕ):ℚ) : ℚ) : ℝ),
            ((((50:ℚ) / ((100:ℕ):ℚ) + z_crit ^ 2 / (2 * ((100:ℕ):ℚ))) / (1 + z_crit ^ 2 / ((100:ℕ):ℚ)) : ℚ) : ℝ) +
              (z_crit : ℝ) * Real.sqrt (((50:ℚ) / ((100:ℕ):ℚ) * (1 - (50:ℚ) / ((100:ℕ):ℚ)) / ((100:ℕ):ℚ) + z_crit ^ 2 / (4 * ((100:ℕ):ℚ) ^ 2) : ℚ)) /
              ((1 + z_crit ^ 2 / ((100:ℕ):ℚ) : ℚ) : ℝ)) := by
    simp only [wilson_confint, hm0, if_false, if_neg hrad]
  set R : ℚ := (50:ℚ) / ((100:ℕ):ℚ) * (1 - (50:ℚ) / ((100:ℕ):ℚ)) / ((100:ℕ):ℚ) +
      z_crit ^ 2 / (4 * ((100:ℕ):ℚ) ^ 2) with hRdef
  set C : ℚ := ((50:ℚ) / ((100:ℕ):ℚ) + z_crit ^ 2 / (2 * ((100:ℕ):ℚ))) / (1 + z_crit ^ 2 / ((100:ℕ):ℚ)) with hCdef
  set D : ℚ := 1 + z_crit ^ 2 / ((100:ℕ):ℚ) with hDdef
  have hC : C = 1/2 := by rw [hCdef, hDdef]; norm_num [z_crit]
  have hR0 : (0:ℝ) ≤ (R:ℝ) := by
    have : (0:ℚ) ≤ R := by rw [hRdef]; norm_num [z_crit]
    exact_mod_cast this
  have hsqrt_ub : Real.sqrt (R:ℝ) ≤ ((0.050951315 : ℚ) : ℝ) := by
    have h1 : (R:ℝ) ≤ ((0.050951315 : ℚ) : ℝ) ^ 2 := by
      have : R ≤ (0.050951315 : ℚ) ^ 2 := by rw [hRdef]; norm_num [z_crit]
      exact_mod_cast this
    calc Real.sqrt (R:ℝ) ≤ Real.sqrt (((0.050951315 : ℚ) : ℝ) ^ 2) := Real.sqrt_le_sqrt h1
      _ = ((0.050951315 : ℚ) : ℝ) := Real.sqrt_sq (by norm_num)
  have hsqrt_lb : ((0.050951314 : ℚ) : ℝ) ≤ Real.sqrt (R:ℝ) := by
    refine (Real.le_sqrt (by norm_num) hR0).mpr ?_
    have : (0.050951314 : ℚ) ^ 2 ≤ R := by rw [hRdef]; norm_num [z_crit]
    exact_mod_cast this
  have hzpos : (0:ℝ) < ((z_crit : ℚ) : ℝ) := by
    have : (0:ℚ) < z_crit := by norm_num [z_crit]
    exact_mod_cast this
  have hDpos : (0:ℝ) < ((D : ℚ) : ℝ) := by
    have : (0:ℚ) < D := by rw [hDdef]; norm_num [z_crit]
    exact_mod_cast this
  have hfrac_ub : (z_crit : ℝ) * Real.sqrt (R:ℝ) / ((D:ℚ):ℝ) ≤ (0.0962 : ℝ) := by
    calc (z_crit : ℝ) * Real.sqrt (R:ℝ) / ((D:ℚ):ℝ)
        ≤ (z_crit : ℝ) * ((0.050951315 : ℚ) : ℝ) / ((D:ℚ):ℝ) := by gcongr
      _ ≤ (0.0962 : ℝ) := by
          rw [div_le_iff₀ hDpos, hDdef]
          simp only [z_crit]
          push_cast
          norm_num
  have hfrac_lb : (0.0961 : ℝ) ≤ (z_crit : ℝ) * Real.sqrt (R:ℝ) / ((D:ℚ):ℝ) := by
    calc (0.0961 : ℝ) ≤ (z_crit : ℝ) * ((0.050951314 : ℚ) : ℝ) / ((D:ℚ):ℝ) := by
          rw [le_div_iff₀ hDpos, hDdef]
          simp only [z_crit]
          push_cast
          norm_num
      _ ≤ (z_crit : ℝ) * Real.sqrt (R:ℝ) / ((D:ℚ):ℝ) := by gcongr
  have hCcast : ((C : ℚ) : ℝ) = (1/2 : ℝ) := by rw [hC]; norm_num
  refine ⟨_, _, heq, ?_, ?_, ?_, ?_⟩
  · rw [hCcast]; linarith
  · rw [hCcast]; linarith
  · rw [hCcast]; linarith
  · rw [hCcast]; linarith

/-- Claim C9: on a binary column with 50 positives among 100 rows,
count_prevalence_rate reports prevalence one half and a 95 percent
Wilson interval within 0.002 of [0.404, 0.596]. -/
theorem claim_C9_wilson_known_value : ∃ l u : ℝ,
    count_prevalence_rate df_fifty ["c"] =
      [{ cond := "c", prevalence := some (1/2), lower := some l, upper := some u }] ∧
    |l - 0.404| ≤ (0.002 : ℝ) ∧ |u - 0.596| ≤ (0.002 : ℝ) := by
  obtain ⟨l, u, hlu, hl1, hl2, hu1, hu2⟩ := wilson_50_100_bounds
  have hcount : (List.replicate 50 true ++ List.replicate 50 false).countP (fun b => b) = 50 := by
    decide
  have hlen : (List.replicate 50 true ++ List.replicate 50 false).length = 100 := by decide
  refine ⟨l, u, ?_, ?_, ?_⟩
  · simp only [count_prevalence_rate, df_fifty, List.map, hcount, hlen]
    rw [show ((50:ℕ):ℚ) = (50:ℚ) by norm_num, hlu]
    simp only [Option.map_some', pd_mean, hlen, hcount]
    norm_num
  · rw [abs_le]
    constructor <;> linarith
  · rw [abs_le]
    constructor <;> linarith

/-! Helper lemmas about contingency tables and the claims C1, C2 and C5
about cramers_v. -/

variable {α β : Type} [DecidableEq α] [DecidableEq β]

theorem sum2_comm {γ δ M : Type} [AddCommMonoid M] (R : List γ) (C : List δ) (f : γ → δ → M) :
    sum2 R C f = sum2 C R (fun b a => f a b) := by
  induction R with
  | nil => simp [sum2]
  | cons a R ih =>
    simp only [sum2, List.map_cons, List.sum_cons] at ih ⊢
    rw [ih, ← List.sum_map_add]

theorem cell_count_pos (p : List (α × β)) {q0 : α × β} (hq : q0 ∈ p) :
    0 < cell_count p q0.1 q0.2 := by
  unfold cell_count
  rw [List.countP_pos_iff]
  exact ⟨q0, hq, by simp⟩

theorem mem_row_labels {p : List (α × β)} {q0 : α × β} (hq : q0 ∈ p) : q0.1 ∈ row_labels p :=
  List.mem_dedup.mpr (List.mem_map.mpr ⟨q0, hq, rfl⟩)

theorem mem_col_labels {p : List (α × β)} {q0 : α × β} (hq : q0 ∈ p) : q0.2 ∈ col_labels p :=
  List.mem_dedup.mpr (List.mem_map.mpr ⟨q0, hq, rfl⟩)

theorem row_sum_pos (p : List (α × β)) {a : α} (ha : a ∈ row_labels p) : 0 < row_sum p a := by
  obtain ⟨x, hx, hxa⟩ := List.mem_map.mp (List.mem_dedup.mp ha)
  have hcell : 0 < cell_count p a x.2 := hxa ▸ cell_count_pos p hx
  have hmem : cell_count p a x.2 ∈ (col_labels p).map (fun b => cell_count p a b) :=
    List.mem_map.mpr ⟨x.2, mem_col_labels hx, rfl⟩
  have := List.single_le_sum (l := (col_labels p).map (fun b => cell_count p a b))
    (fun n _ => Nat.zero_le n) _ hmem
  unfold row_sum
  omega

theorem col_sum_pos (p : List (α × β)) {b : β} (hb : b ∈ col_labels p) : 0 < col_sum p b := by
  obtain ⟨x, hx, hxb⟩ := List.mem_map.mp (List.mem_dedup.mp hb)
  have hcell : 0 < cell_count p x.1 b := hxb ▸ cell_count_pos p hx
  have hmem : cell_count p x.1 b ∈ (row_labels p).map (fun a => cell_count p a b) :=
    List.mem_map.mpr ⟨x.1, mem_row_labels hx, rfl⟩
  have := List.single_le_sum (l := (row_labels p).map (fun a => cell_count p a b))
    (fun n _ => Nat.zero_le n) _ hmem
  unfold col_sum
  omega

theorem grand_total_pos (p : List (α × β)) (hp : p ≠ []) : 0 < grand_total p := by
  obtain ⟨q0, hq0⟩ := List.exists_mem_of_ne_nil p hp
  have hrow : 0 < row_sum p q0.1 := row_sum_pos p (mem_row_labels hq0)
  have hmem : row_sum p q0.1 ∈ (row_labels p).map (fun a => ((col_labels p).map (fun b => cell_count p a b)).sum) :=
    List.mem_map.mpr ⟨q0.1, mem_row_labels hq0, rfl⟩
  have := List.single_le_sum
    (l := (row_labels p).map (fun a => ((col_labels p).map (fun b => cell_count p a b)).sum))
    (fun n _ => Nat.zero_le n) _ hmem
  simp only [grand_total, sum2]
  simp only [row_sum] at hrow this
  omega

theorem expected_freq_ne_zero {p : List (α × β)} {a : α} {b : β}
    (ha : a ∈ row_labels p) (hb : b ∈ col_labels p) (hp : p ≠ []) :
    expected_freq p a b ≠ 0 := by
  unfold expected_freq
  apply div_ne_zero
  · have h1 := row_sum_pos p ha
    have h2 := col_sum_pos p hb
    have : 0 < row_sum p a * col_sum p b := Nat.mul_pos h1 h2
    exact_mod_cast Nat.pos_iff_ne_zero.mp this
  · have := grand_total_pos p hp
    exact_mod_cast Nat.pos_iff_ne_zero.mp this




theorem row_labels_swap (p : List (α × β)) : row_labels (p.map Prod.swap) = col_labels p := by
  simp [row_labels, col_labels, List.map_map, Function.comp_def]

theorem col_labels_swap (p : List (α × β)) : col_labels (p.map Prod.swap) = row_labels p := by
  simp [row_labels, col_labels, List.map_map, Function.comp_def]

theorem cell_count_swap (p : List (α × β)) (a : α) (b : β) :
    cell_count (p.map Prod.swap) b a = cell_count p a b := by
  unfold cell_count
  rw [List.countP_map]
  apply List.countP_congr
  intro q _
  simp [Function.comp_def, Prod.swap, Bool.and_comm]

theorem row_sum_swap (p : List (α × β)) (b : β) : row_sum (p.map Prod.swap) b = col_sum p b := by
  unfold row_sum col_sum
  rw [col_labels_swap]
  apply congrArg
  apply List.map_congr_left
  intro a _
  exact cell_count_swap p a b

theorem col_sum_swap (p : List (α × β)) (a : α) : col_sum (p.map Prod.swap) a = row_sum p a := by
  unfold row_sum col_sum
  rw [row_labels_swap]
  apply congrArg
  apply List.map_congr_left
  intro b _
  exact cell_count_swap p a b

theorem grand_total_swap (p : List (α × β)) : grand_total (p.map Prod.swap) = grand_total p := by
  unfold grand_total
  rw [row_labels_swap, col_labels_swap, sum2_comm]
  simp only [sum2]
  apply congrArg
  apply List.map_congr_left
  intro a _
  apply congrArg
  apply List.map_congr_left
  intro b _
  exact cell_count_swap p a b

theorem expected_freq_swap (p : List (α × β)) (a : α) (b : β) :
    expected_freq (p.map Prod.swap) b a = expected_freq p a b := by
  unfold expected_freq
  rw [row_sum_swap, col_sum_swap, grand_total_swap, Nat.mul_comm]

theorem contingency_dof_swap (p : List (α × β)) :
    contingency_dof (p.map Prod.swap) = contingency_dof p := by
  unfold contingency_dof
  rw [row_labels_swap, col_labels_swap, Nat.mul_comm]

theorem any_any_comm {γ δ : Type} (R : List γ) (C : List δ) (f : γ → δ → Bool) :
    (R.any fun a => C.any fun b => f a b) = (C.any fun b => R.any fun a => f a b) := by
  rw [Bool.eq_iff_iff]
  simp only [List.any_eq_true]
  tauto

theorem chi2_contingency_swap (p : List (α × β)) :
    chi2_contingency (p.map Prod.swap) = chi2_contingency p := by
  unfold chi2_contingency
  rw [row_labels_swap, col_labels_swap, contingency_dof_swap]
  simp only [cell_count_swap, expected_freq_swap]
  refine if_congr or_comm rfl (if_congr ?_ rfl (if_congr Iff.rfl rfl (if_congr Iff.rfl ?_ ?_)))
  · rw [any_any_comm (col_labels p) (row_labels p)
        (fun b a => decide (expected_freq p a b = 0))]
  · exact congrArg _ (sum2_comm (col_labels p) (row_labels p)
        (fun b a => sq_dev_term (yates_adjusted ((cell_count p a b : ℕ) : ℚ) (expected_freq p a b)) (expected_freq p a b)))
  · exact congrArg _ (sum2_comm (col_labels p) (row_labels p)
        (fun b a => sq_dev_term ((cell_count p a b : ℕ) : ℚ) (expected_freq p a b)))

theorem cramers_v_radicand_swap (x : List α) (y : List β) :
    cramers_v_radicand y x = cramers_v_radicand x y := by
  unfold cramers_v_radicand
  rw [← List.zip_swap x y]
  rw [chi2_contingency_swap, grand_total_swap, row_labels_swap, col_labels_swap,
      min_comm (((col_labels (x.zip y)).length : ℤ)) (((row_labels (x.zip y)).length : ℤ))]




theorem yates_cell_eq (o e : ℚ) :
    sq_dev_term (yates_adjusted o e) e = yates_term_spec o e := by
  unfold sq_dev_term yates_adjusted yates_term_spec
  have hnum : (o + min (1/2) |e - o| * np_sign (e - o) - e) ^ 2 = max (|e - o| - 1/2) 0 ^ 2 := by
    rcases lt_trichotomy (e - o) 0 with hd | hd | hd
    · have hsign : np_sign (e - o) = -1 := by simp [np_sign, hd]
      have habs : |e - o| = -(e - o) := abs_of_neg hd
      rw [hsign, habs]
      rcases le_total (1/2 : ℚ) (-(e - o)) with hm | hm
      · rw [min_eq_left hm, max_eq_left (by linarith)]
        ring
      · rw [min_eq_right hm, max_eq_right (by linarith)]
        ring
    · have hsign : np_sign (e - o) = 0 := by simp [np_sign, hd]
      have ho : o = e := by linarith
      rw [hsign, hd]
      simp [ho]
    · have hsign : np_sign (e - o) = 1 := by
        simp only [np_sign, if_neg (by linarith : ¬ (e - o < 0)), if_neg (by linarith : ¬ (e - o = 0))]
      have habs : |e - o| = e - o := abs_of_pos hd
      rw [hsign, habs]
      rcases le_total (1/2 : ℚ) (e - o) with hm | hm
      · rw [min_eq_left hm, max_eq_left (by linarith)]
        ring
      · rw [min_eq_right hm, max_eq_right (by linarith)]
        ring
    done
  rw [hnum]

theorem nat_mul_eq_one_iff {m n : ℕ} : m * n = 1 ↔ m = 1 ∧ n = 1 := by
  constructor
  · intro h
    have hm : m = 1 := Nat.dvd_one.mp ⟨n, h.symm⟩
    subst hm
    simpa using h
  · rintro ⟨rfl, rfl⟩
    rfl

theorem contingency_dof_eq_one_iff (p : List (α × β)) :
    contingency_dof p = 1 ↔ (row_labels p).length = 2 ∧ (col_labels p).length = 2 := by
  unfold contingency_dof
  rw [nat_mul_eq_one_iff]
  omega




theorem zip_ne_nil {x : List α} {y : List β} (hlen : x.length = y.length) (hx : x ≠ []) :
    x.zip y ≠ [] := by
  intro h
  have h1 := congrArg List.length h
  rw [List.length_zip, hlen, min_self, List.length_nil] at h1
  have h2 : x.length = 0 := by omega
  exact hx (List.length_eq_zero.mp h2)

theorem cramers_v_radicand_eq (x : List α) (y : List β) (hlen : x.length = y.length)
    (hx2 : 2 ≤ x.dedup.length) (hy2 : 2 ≤ y.dedup.length) :
    cramers_v_radicand x y = .ok (some (chi2_spec_amended (x.zip y) /
      ((grand_total (x.zip y) : ℚ) *
        (((min (row_labels (x.zip y)).length (col_labels (x.zip y)).length : ℤ) - 1 : ℤ) : ℚ)))) := by
  have hrow : row_labels (x.zip y) = x.dedup := by
    unfold row_labels
    rw [List.map_fst_zip x y hlen.le]
  have hcol : col_labels (x.zip y) = y.dedup := by
    unfold col_labels
    rw [List.map_snd_zip x y hlen.ge]
  have hxne : x ≠ [] := by
    intro h
    subst h
    simp at hx2
  have hpne : x.zip y ≠ [] := zip_ne_nil hlen hxne
  have hc1 : ¬ ((row_labels (x.zip y)).length = 0 ∨ (col_labels (x.zip y)).length = 0) := by
    rw [hrow, hcol]
    push_neg
    omega
  have hc2 : ¬ (((row_labels (x.zip y)).any
      (fun a => (col_labels (x.zip y)).any
        (fun b => decide (expected_freq (x.zip y) a b = 0)))) = true) := by
    intro h
    simp only [List.any_eq_true, decide_eq_true_eq] at h
    obtain ⟨a, ha, b, hb, hab⟩ := h
    exact expected_freq_ne_zero ha hb hpne hab
  have hdof : contingency_dof (x.zip y) ≠ 0 := by
    unfold contingency_dof
    rw [hrow, hcol]
    intro h
    rcases Nat.mul_eq_zero.mp h with h' | h' <;> omega
  have hd : (grand_total (x.zip y) : ℚ) *
      (((min (row_labels (x.zip y)).length (col_labels (x.zip y)).length : ℤ) - 1 : ℤ) : ℚ) ≠ 0 := by
    apply mul_ne_zero
    · have := grand_total_pos _ hpne
      exact_mod_cast Nat.pos_iff_ne_zero.mp this
    · rw [hrow, hcol]
      have h1 : (1:ℤ) ≤ (min x.dedup.length y.dedup.length : ℤ) - 1 := by
        have : 2 ≤ min x.dedup.length y.dedup.length := le_min hx2 hy2
        omega
      intro h
      rw [show (((min x.dedup.length y.dedup.length : ℤ) - 1 : ℤ) : ℚ) = 0 ↔
            ((min x.dedup.length y.dedup.length : ℤ) - 1 : ℤ) = 0 from Int.cast_eq_zero] at h
      omega
  unfold cramers_v_radicand chi2_contingency
  rw [if_neg hc1]
  rw [if_neg hc2]
  rw [if_neg hdof]
  by_cases h1 : contingency_dof (x.zip y) = 1
  · rw [if_pos h1]
    have h22 := (contingency_dof_eq_one_iff _).mp h1
    simp only [Except.map]
    rw [if_neg hd]
    unfold chi2_spec_amended
    rw [if_pos h22]
    simp only [yates_cell_eq]
  · rw [if_neg h1]
    have h22 : ¬ ((row_labels (x.zip y)).length = 2 ∧ (col_labels (x.zip y)).length = 2) :=
      fun h => h1 ((contingency_dof_eq_one_iff _).mpr h)
    simp only [Except.map]
    rw [if_neg hd]
    unfold chi2_spec_amended
    rw [if_neg h22]
    rfl




/-- Claim C1 (amended): for equal-length categorical columns with at
least two observed categories each, cramers_v equals
sqrt(chi2 / (n (min(r, k) - 1))) where chi2 is the Pearson chi-squared
statistic over the contingency table computed WITH the Yates continuity
correction when the table is 2 by 2, and with no correction otherwise.
(The spec claims no continuity correction ever; see the
counterexample.) -/
theorem claim_C1_cramers_v_formula (x : List α) (y : List β) (hlen : x.length = y.length)
    (hx2 : 2 ≤ x.dedup.length) (hy2 : 2 ≤ y.dedup.length) :
    cramers_v x y = .ok (some (cramers_v_amended x y)) := by
  unfold cramers_v cramers_v_amended
  rw [cramers_v_radicand_eq x y hlen hx2 hy2]
  rfl

/-- Witness for claim C1 at a 2 by 2 table with cell counts 1. -/
theorem claim_C1_witness :
    (([1,1,2,2] : List ℕ).length = ([1,2,1,2] : List ℕ).length ∧
     2 ≤ ([1,1,2,2] : List ℕ).dedup.length ∧ 2 ≤ ([1,2,1,2] : List ℕ).dedup.length) ∧
    cramers_v ([1,1,2,2] : List ℕ) ([1,2,1,2] : List ℕ) =
      .ok (some (cramers_v_amended ([1,1,2,2] : List ℕ) ([1,2,1,2] : List ℕ))) :=
  ⟨⟨by decide, by decide, by decide⟩,
   claim_C1_cramers_v_formula _ _ (by decide) (by decide) (by decide)⟩

/-- Counterexample for claim C1 as stated: on the perfectly associated
2 by 2 table with cell counts [[2,0],[0,2]] scipy applies the Yates
correction (statistic 1, value sqrt(1/4) = 1/2) while the uncorrected
spec formula gives statistic 4 and value 1. -/
theorem claim_C1_counterexample :
    cramers_v ([1,1,2,2] : List ℕ) ([1,1,2,2] : List ℕ) ≠
      .ok (some (cramers_v_spec ([1,1,2,2] : List ℕ) ([1,1,2,2] : List ℕ))) := by
  have hcode : cramers_v_radicand ([1,1,2,2] : List ℕ) ([1,1,2,2] : List ℕ) = .ok (some (1/4)) := by
    norm_num [cramers_v_radicand, chi2_contingency, row_labels, col_labels, cell_count,
      expected_freq, grand_total, sum2, contingency_dof, np_sign, yates_adjusted, sq_dev_term,
      row_sum, col_sum, List.zip, List.zipWith, List.dedup, List.countP, List.countP.go,
      List.any, Except.map]
  have hspec : cramers_v_spec ([1,1,2,2] : List ℕ) ([1,1,2,2] : List ℕ) = Real.sqrt ((1 : ℚ) : ℝ) := by
    unfold cramers_v_spec
    norm_num [chi2_pearson_spec, row_labels, col_labels, cell_count, expected_freq, grand_total,
      sum2, sq_dev_term, row_sum, col_sum, List.zip, List.zipWith, List.dedup, List.countP,
      List.countP.go]
  unfold cramers_v
  rw [hcode, hspec]
  intro h
  have h2 : Real.sqrt (((1:ℚ)/4 : ℚ) : ℝ) = Real.sqrt ((1 : ℚ) : ℝ) := by
    injection h with h1
    injection h1
  rw [show (((1:ℚ)/4 : ℚ) : ℝ) = ((1:ℝ)/2)^2 by norm_num,
      Real.sqrt_sq (by norm_num : (0:ℝ) ≤ 1/2)] at h2
  rw [show ((1 : ℚ) : ℝ) = (1:ℝ) by norm_num, Real.sqrt_one] at h2
  norm_num at h2

/-- Claim C2: for every pair of equal-length categorical columns with at
least two observed categories each, cramers_v(a, b) and cramers_v(b, a)
are defined and equal within the 1e-9 tolerance (the transposed
contingency table gives the identical statistic). -/
theorem claim_C2_symmetry (x : List α) (y : List β) (hlen : x.length = y.length)
    (hx2 : 2 ≤ x.dedup.length) (hy2 : 2 ≤ y.dedup.length) :
    ∃ v w : ℝ, cramers_v x y = .ok (some v) ∧ cramers_v y x = .ok (some w) ∧
      |v - w| ≤ 1/1000000000 := by
  have h1 := cramers_v_radicand_eq x y hlen hx2 hy2
  have h2 := (cramers_v_radicand_swap x y).trans h1
  refine ⟨Real.sqrt ((chi2_spec_amended (x.zip y) /
      ((grand_total (x.zip y) : ℚ) *
        (((min (row_labels (x.zip y)).length (col_labels (x.zip y)).length : ℤ) - 1 : ℤ) : ℚ)) : ℚ) : ℝ),
    Real.sqrt ((chi2_spec_amended (x.zip y) /
      ((grand_total (x.zip y) : ℚ) *
        (((min (row_labels (x.zip y)).length (col_labels (x.zip y)).length : ℤ) - 1 : ℤ) : ℚ)) : ℚ) : ℝ),
    ?_, ?_, ?_⟩
  · unfold cramers_v
    rw [h1]
    rfl
  · unfold cramers_v
    rw [h2]
    rfl
  · simp only [sub_self, abs_zero]
    norm_num

/-- Witness for claim C2 at a pair of binary columns. -/
theorem claim_C2_witness :
    (([0,0,1,1] : List ℕ).length = ([0,1,0,1] : List ℕ).length ∧
     2 ≤ ([0,0,1,1] : List ℕ).dedup.length ∧ 2 ≤ ([0,1,0,1] : List ℕ).dedup.length) ∧
    (∃ v w : ℝ, cramers_v ([0,0,1,1] : List ℕ) ([0,1,0,1] : List ℕ) = .ok (some v) ∧
      cramers_v ([0,1,0,1] : List ℕ) ([0,0,1,1] : List ℕ) = .ok (some w) ∧
      |v - w| ≤ 1/1000000000) :=
  ⟨⟨by decide, by decide, by decide⟩,
   claim_C2_symmetry _ _ (by decide) (by decide) (by decide)⟩

/-- The degenerate path of cramers_v: with a single observed category on
one side, the chi-squared statistic is 0 at zero degrees of freedom and
the float division 0 / (n (min(r, k) - 1)) = 0/0 produces NaN. -/
theorem cramers_v_nan_of_degenerate (x : List α) (y : List β) (hlen : x.length = y.length)
    (hx : x ≠ []) (hmin : min x.dedup.length y.dedup.length = 1) :
    cramers_v x y = .ok none := by
  have hrow : row_labels (x.zip y) = x.dedup := by
    unfold row_labels
    rw [List.map_fst_zip x y hlen.le]
  have hcol : col_labels (x.zip y) = y.dedup := by
    unfold col_labels
    rw [List.map_snd_zip x y hlen.ge]
  have hyne : y ≠ [] := by
    intro h
    subst h
    simp at hlen
    exact hx hlen
  have hxd : 0 < x.dedup.length := List.length_pos.mpr (fun h => hx ((List.dedup_eq_nil x).mp h))
  have hyd : 0 < y.dedup.length := List.length_pos.mpr (fun h => hyne ((List.dedup_eq_nil y).mp h))
  have hpne : x.zip y ≠ [] := zip_ne_nil hlen hx
  have hc1 : ¬ ((row_labels (x.zip y)).length = 0 ∨ (col_labels (x.zip y)).length = 0) := by
    rw [hrow, hcol]
    push_neg
    omega
  have hc2 : ¬ (((row_labels (x.zip y)).any
      (fun a => (col_labels (x.zip y)).any
        (fun b => decide (expected_freq (x.zip y) a b = 0)))) = true) := by
    intro h
    simp only [List.any_eq_true, decide_eq_true_eq] at h
    obtain ⟨a, ha, b, hb, hab⟩ := h
    exact expected_freq_ne_zero ha hb hpne hab
  have hdof : contingency_dof (x.zip y) = 0 := by
    unfold contingency_dof
    rw [hrow, hcol]
    rcases min_eq_iff.mp hmin with ⟨h, _⟩ | ⟨h, _⟩ <;> rw [h] <;> simp
  have hd0 : ((grand_total (x.zip y) : ℚ) *
      (((min (row_labels (x.zip y)).length (col_labels (x.zip y)).length : ℤ) - 1 : ℤ) : ℚ)) = 0 := by
    rw [hrow, hcol, ← Nat.cast_min, hmin]
    norm_num
  unfold cramers_v cramers_v_radicand chi2_contingency
  rw [if_neg hc1, if_neg hc2, if_pos hdof]
  simp only [Except.map]
  rw [if_pos hd0]
  rfl




/-- Claim C5 (amended): for every pair of equal-length nonempty
categorical columns with min(r, k) = 1, cramers_v does not raise any
error: it silently returns the float NaN (0/0), modelled as ok none. -/
theorem claim_C5_degenerate_nan (x : List α) (y : List β) (hlen : x.length = y.length)
    (hx : x ≠ []) (hmin : min x.dedup.length y.dedup.length = 1) :
    cramers_v x y = .ok none :=
  cramers_v_nan_of_degenerate x y hlen hx hmin

/-- Witness for claim C5 at a constant column against a three-valued
column. -/
theorem claim_C5_witness :
    (([7,7,7] : List ℕ).length = ([0,1,2] : List ℕ).length ∧ ([7,7,7] : List ℕ) ≠ [] ∧
      min ([7,7,7] : List ℕ).dedup.length ([0,1,2] : List ℕ).dedup.length = 1) ∧
    cramers_v ([7,7,7] : List ℕ) ([0,1,2] : List ℕ) = .ok none :=
  ⟨⟨by decide, by decide, by decide⟩,
   claim_C5_degenerate_nan _ _ (by decide) (by decide) (by decide)⟩

/-- Counterexample for claim C5 as stated: at a concrete degenerate pair
the function returns NaN (ok none) instead of failing with an error. -/
theorem claim_C5_counterexample :
    cramers_v ([1,1] : List ℕ) ([1,2] : List ℕ) = .ok none :=
  cramers_v_nan_of_degenerate _ _ (by decide) (by decide) (by decide)

/-! Claim C8 about categorical_and_numeric_correlation. -/

/-- Claim C8 (amended): categorical_and_numeric_correlation fails with
the insufficient-groups error (the scipy f_oneway TypeError raised when
fewer than two samples are passed, the error kind the spec names
InsufficientGroupsError) whenever some listed categorical column has
fewer than two distinct labels as pandas unique counts them, a missing
label included.  The count of NON-EMPTY groups does not govern the
failure: a column with one observed category plus missing cells hands
f_oneway two samples, one of them empty, and scipy then only warns and
produces NaN (see the counterexample). -/
theorem claim_C8_insufficient_groups {α : Type} [DecidableEq α]
    (df_cats : List (String × List (Option α))) (numeric : List ℚ)
    (hbad : ∃ c ∈ df_cats, (unique_labels c.2).length < 2) :
    categorical_and_numeric_correlation df_cats numeric = .error .insufficientGroups := by
  unfold categorical_and_numeric_correlation
  revert hbad
  induction df_cats with
  | nil =>
    intro hbad
    simp at hbad
  | cons c rest ih =>
    intro hbad
    rw [List.mapM_cons]
    by_cases hc : (unique_labels c.2).length < 2
    · have hf : f_oneway ((unique_labels c.2).map (fun lab => group_values c.2 numeric lab)) =
          .error .insufficientGroups := by
        unfold f_oneway
        rw [if_pos (by simpa using hc)]
      rw [hf]
      rfl
    · obtain ⟨c', hc', hbad'⟩ := hbad
      rcases List.mem_cons.mp hc' with rfl | hmem
      · exact absurd hbad' hc
      · have hrest : rest.mapM (fun c =>
            (f_oneway ((unique_labels c.2).map (fun lab => group_values c.2 numeric lab))).map
              (fun f => (c.1, f))) = .error .insufficientGroups :=
          ih ⟨c', hmem, hbad'⟩
        have hok : ∃ v, (f_oneway ((unique_labels c.2).map (fun lab => group_values c.2 numeric lab))).map
            (fun f => (c.1, f)) = .ok v := by
          unfold f_oneway
          rw [if_neg (by simpa using hc)]
          split_ifs <;> exact ⟨_, rfl⟩
        obtain ⟨v, hv⟩ := hok
        rw [hv, hrest]
        rfl

/-- Witness for claim C8: a single-label categorical column with no
missing cell. -/
theorem claim_C8_witness :
    (∃ c ∈ [("g", ([some 0, some 0, some 0] : List (Option ℕ)))],
      (unique_labels c.2).length < 2) ∧
    categorical_and_numeric_correlation [("g", ([some 0, some 0, some 0] : List (Option ℕ)))]
      [(1:ℚ), 2, 3] = .error .insufficientGroups :=
  ⟨⟨("g", [some 0, some 0, some 0]), by decide, by decide⟩,
   claim_C8_insufficient_groups _ _ ⟨("g", [some 0, some 0, some 0]), by decide, by decide⟩⟩

/-- Counterexample for claim C8 as stated: the column with cells
[a, a, NaN] has a single observed category, hence fewer than 2 non-empty
groups, yet the call does not fail: pandas unique returns the two labels
a and NaN, the NaN selection is the empty frame, and scipy f_oneway with
two samples (one empty) only warns and returns NaN, so the whole call
returns a table with a NaN entry. -/
theorem claim_C8_counterexample :
    categorical_and_numeric_correlation [("g", ([some 0, some 0, none] : List (Option ℕ)))]
      [(1:ℚ), 2, 3] = .ok [("g", none)] := rfl

end EDA
